import Mathlib

/-
Verification development for the las-rasterizer point-cloud rasterizer.

The Rust sources are shallowly embedded below.  Real-number (`f64`)
arithmetic is modelled over `ℚ`; the two finite extremes `f64::MIN` and
`f64::MAX` are kept as the exact rational values of those floats.  The
constrained Delaunay triangulation provided by the external `spade` crate
is modelled as an abstract interface (`Mesh`): the builder's own logic
(filtering, sorting, the freeze sweep, the watermark, the locate dispatch
and the raster sampling loop) is embedded concretely, while `locate`,
`insert`, `add_constraint` and the barycentric interpolator are parameters.
A second, small model over `F` (`ℚ` extended with a NaN element) captures
the partiality of `f64::partial_cmp` where claims concern NaN behaviour.
-/

namespace LasRaster

/-- Exact rational value of `f64::MIN` (the least finite `f64`),
the seed of the watermark fold in `triangulate` (triangulation.rs line 54). -/
def f64Min : ℚ := -(2 ^ 1024 - 2 ^ 971)

/-- Exact rational value of `f64::MAX`, the seed of the `Function::Min`
fold in `collapse_cell` (binning.rs line 31). -/
def f64Max : ℚ := 2 ^ 1024 - 2 ^ 971

/-- The NODATA sentinel, `pub const NODATA: f64 = -9999.0` (main.rs line 175). -/
def NODATA : ℚ := -9999

/-- A decoded LAS point as consumed by the two pipelines: position, elevation,
intensity and the numeric LAS classification code (las crate `Point`). -/
structure LasPoint where
  x : ℚ
  y : ℚ
  z : ℚ
  intensity : ℚ
  classification : ℕ
deriving DecidableEq

/-- The `Variable` enum of main.rs lines 22-28: which scalar is rasterized. -/
inductive Variable
  | x
  | y
  | z
  | intensity
deriving DecidableEq

/-- Embedding of `get_var` (main.rs lines 166-173). -/
def getVar (v : Variable) (p : LasPoint) : ℚ :=
  match v with
  | .x => p.x
  | .y => p.y
  | .z => p.z
  | .intensity => p.intensity

/-- Numeric code of `las::point::Classification::HighNoise` (LAS class 18),
the only classification filtered out by `triangulate` (triangulation.rs line 61). -/
def highNoise : ℕ := 18

/-- Numeric code of `las::point::Classification::LowPoint` (LAS class 7,
"Low Point (noise)" in the LAS 1.4 specification linked from main.rs). -/
def lowPointNoise : ℕ := 7

/-- Modelled from the spec: the LAS 1.4 specification referenced by main.rs
marks two classes as noise, class 7 (Low Point / noise) and class 18
(High Noise).  This predicate formalises the spec's phrase
"classification marks them as noise". -/
def isNoiseClassification (c : ℕ) : Prop := c = lowPointNoise ∨ c = highNoise

instance (c : ℕ) : Decidable (isNoiseClassification c) := by
  unfold isNoiseClassification; infer_instance

/-- The internal `Point` struct of triangulation.rs lines 15-30: planar
position, elevation `z` and the rasterized `value`. -/
structure Point where
  x : ℚ
  y : ℚ
  z : ℚ
  value : ℚ
deriving DecidableEq

/-- Embedding of `Point::new(point.x, point.y, point.z, var)` with
`var = get_var(&var, &point)` (triangulation.rs lines 65-67). -/
def mkPoint (v : Variable) (p : LasPoint) : Point :=
  ⟨p.x, p.y, p.z, getVar v p⟩

/-- The point-reading loop of `triangulate` (triangulation.rs lines 56-68),
restricted to the part that builds the retained point list: a point is
pushed unless its classification equals `HighNoise`. -/
def readPoints (v : Variable) : List LasPoint → List Point
  | [] => []
  | p :: ps =>
    if p.classification = highNoise then readPoints v ps
    else mkPoint v p :: readPoints v ps

/-- The watermark initialisation of the same loop (triangulation.rs lines
54 and 59): `buffer_height` starts at `f64::MIN` and is raised by
`buffer_height.max(point.z)` for every decoded point, noise included
(the `max` precedes the classification `continue`). -/
def initWatermark (ps : List LasPoint) : ℚ :=
  ps.foldl (fun acc p => max acc p.z) f64Min

/-- Stable insertion used by the descending sort of triangulation.rs line
72 (`sort_by(|a, b| b.z.partial_cmp(&a.z).unwrap())`): the new element
goes in front of an existing one exactly when the comparator does not
return `Greater`, i.e. when `q.z ≤ p.z`. -/
def insertDesc (p : Point) : List Point → List Point
  | [] => [p]
  | q :: qs => if q.z ≤ p.z then p :: q :: qs else q :: insertDesc p qs

/-- Stable sort by elevation, descending: the semantics of the total-order
case of `slice::sort_by` with the comparator of triangulation.rs line 72. -/
def sortDesc : List Point → List Point
  | [] => []
  | p :: ps => insertDesc p (sortDesc ps)

/-- An entry of the `constraint_buffer` (the FreezeBuffer).  The Rust queue
stores `FixedDirectedEdgeHandle`s; the freeze sweep dereferences a handle
and reads the originating vertex's elevation (`edge.from().data().z`) and
the two endpoint positions.  The entry records exactly the data the sweep
observes through the handle. -/
structure BufEdge where
  fromZ : ℚ
  aX : ℚ
  aY : ℚ
  bX : ℚ
  bY : ℚ
deriving DecidableEq

/-- The squared planar edge length computed inside the drain closure
(triangulation.rs lines 87-88). -/
def dist2 (e : BufEdge) : ℚ := (e.aX - e.bX) ^ 2 + (e.aY - e.bY) ^ 2

/-- Result of `spade`'s `Triangulation::locate`, reduced to the data the
dispatch in triangulation.rs lines 109-131 actually inspects. -/
inductive LocateResult
  | onFace (allConstraints : Bool)
  | onVertex (vz : ℚ)
  | onEdge (isConstraint : Bool)
  | outside
deriving DecidableEq

/-- Abstract interface of the external `spade` constrained Delaunay
triangulation over a carrier type of triangulation states. -/
structure Mesh (τ : Type) where
  locate : τ → ℚ × ℚ → LocateResult
  insert : τ → Point → Option (τ × List BufEdge)
  addConstraint : τ → ℚ × ℚ → ℚ × ℚ → τ
  interp : τ → ℚ → ℚ → Option ℚ

/-- The scan loop of triangulation.rs lines 79-97 applied to the REVERSED
buffer: `constraint_buffer.iter().rev().enumerate()` walks newest to
oldest and breaks at the first edge with `from().z > thr`, yielding its
enumeration index (0 = newest). -/
def revScan (thr : ℚ) : List BufEdge → Option ℕ
  | [] => none
  | e :: es => if thr < e.fromZ then some 0 else (revScan thr es).map (· + 1)

/-- The freeze-check eviction of triangulation.rs lines 79-97: if the scan
finds a qualifying edge at reverse index `i`, `constraint_buffer.drain(..=i)`
removes the `i + 1` OLDEST entries (front-based indices `0 ..= i`); the
rest of the queue is kept.  Returns (evicted, remaining). -/
def sweepSplit (buf : List BufEdge) (thr : ℚ) : List BufEdge × List BufEdge :=
  match revScan thr buf.reverse with
  | none => ([], buf)
  | some i => (buf.take (i + 1), buf.drop (i + 1))

/-- The full freeze check (triangulation.rs lines 79-97): split the buffer,
then for each evicted edge whose squared length is strictly below
`freeze_distance_2` call `add_constraint`. -/
def freezeSweep {τ : Type} (M : Mesh τ) (fd2 ib : ℚ) (t : τ) (wm : ℚ)
    (buf : List BufEdge) : τ × List BufEdge :=
  let s := sweepSplit buf (wm + ib)
  (s.1.foldl
      (fun t e =>
        if dist2 e < fd2 then M.addConstraint t (e.aX, e.aY) (e.bX, e.bY) else t)
      t,
    s.2)

/-- Builder state threaded through the insertion loop: the triangulation,
the watermark (`buffer_height`) and the FreezeBuffer (`constraint_buffer`). -/
structure St (τ : Type) where
  tri : τ
  wm : ℚ
  buf : List BufEdge
deriving DecidableEq

/-- The `insert_vert` closure of triangulation.rs lines 99-107: lower the
watermark to `min(watermark, point.z)`, insert the vertex (fallibly), and
append the new vertex's out-edges to the back of the buffer. -/
def insertVert {τ : Type} (M : Mesh τ) (p : Point) (st : St τ) : Option (St τ) :=
  let wm := min st.wm p.z
  match M.insert st.tri p with
  | none => none
  | some (t, es) => some ⟨t, wm, st.buf ++ es⟩

/-- The four-way locate dispatch of triangulation.rs lines 109-131: insert
inside a face unless all three of its edges are constraints; on top of a
vertex only when the elevation gap exceeds the watermark; on an edge
unless it is a constraint; always when outside the hull or the
triangulation is empty. -/
def stepLocate {τ : Type} (M : Mesh τ) (p : Point) (st1 : St τ) :
    Option (St τ) :=
  match M.locate st1.tri (p.x, p.y) with
  | .onFace allC => if allC then some st1 else insertVert M p st1
  | .onVertex vz => if st1.wm < p.z - vz then insertVert M p st1 else some st1
  | .onEdge isC => if isC then some st1 else insertVert M p st1
  | .outside => insertVert M p st1

/-- One iteration of the `try_for_each` body (triangulation.rs lines
78-134): freeze check, then the locate dispatch. -/
def step {τ : Type} (M : Mesh τ) (fd2 ib : ℚ) (st : St τ) (p : Point) :
    Option (St τ) :=
  let s := freezeSweep M fd2 ib st.tri st.wm st.buf
  stepLocate M p ⟨s.1, st.wm, s.2⟩

/-- The whole insertion loop (`points.into_iter().try_for_each`). -/
def buildLoop {τ : Type} (M : Mesh τ) (fd2 ib : ℚ) (st : St τ)
    (ps : List Point) : Option (St τ) :=
  ps.foldlM (step M fd2 ib) st

/-- Rust's `f64::round` (round half away from zero), as applied to the
extent minimum in triangulation.rs lines 143 and 145. -/
def rustRound (q : ℚ) : ℚ :=
  if 0 ≤ q then ((⌊q + 1 / 2⌋ : ℤ) : ℚ) else ((⌈q - 1 / 2⌉ : ℤ) : ℚ)

/-- The `las::Bounds` pair of corners. -/
structure Bounds where
  minX : ℚ
  minY : ℚ
  minZ : ℚ
  maxX : ℚ
  maxY : ℚ
  maxZ : ℚ
deriving DecidableEq

/-- Models `((max - min) / res).ceil() as usize` per axis (util.rs lines
6-7): the saturating float-to-usize cast clamps negatives to 0. -/
def ceilDiv (a res : ℚ) : ℕ := (⌈a / res⌉).toNat

/-- Embedding of `get_raster_size` (util.rs lines 4-10), as a function of
the bounds it reads: `(width, height)`. -/
def getRasterSize (b : Bounds) (res : ℚ) : ℕ × ℕ :=
  (ceilDiv (b.maxX - b.minX) res, ceilDiv (b.maxY - b.minY) res)

/-- The sampling double loop of triangulation.rs lines 140-152: rows
outside, columns inside, row-major pushes; the sample position of cell
`(x, y)` is `(min.x.round() + res * x, min.y.round() + res * y)`, and a
failed interpolation yields NODATA (`unwrap_or(NODATA)`). -/
def rasterize (interp : ℚ → ℚ → Option ℚ) (minX minY res : ℚ)
    (width height : ℕ) : List ℚ :=
  (List.range height).flatMap fun (y : ℕ) =>
    (List.range width).map fun (x : ℕ) =>
      (interp (rustRound minX + res * (x : ℚ)) (rustRound minY + res * (y : ℚ))).getD NODATA

/-- The whole `triangulate` pipeline (triangulation.rs lines 42-155) over
an abstract mesh `M` with initial triangulation `t0`:
read/filter, initialise the watermark, sort descending, run the insertion
loop, then sample the raster.  `none` models an aborted run. -/
def triangulateRun {τ : Type} (M : Mesh τ) (t0 : τ) (ps : List LasPoint)
    (b : Bounds) (v : Variable) (res fd ib : ℚ) : Option (List ℚ) :=
  let fd2 := fd * fd
  let wm0 := initWatermark ps
  let pts := sortDesc (readPoints v ps)
  match buildLoop M fd2 ib ⟨t0, wm0, []⟩ pts with
  | none => none
  | some st =>
    let s := getRasterSize b res
    some (rasterize (M.interp st.tri) b.minX b.minY res s.1 s.2)

/-- The `Function` enum of main.rs lines 30-39 (binning aggregation). -/
inductive Function
  | mean
  | median
  | min
  | max
  | count
deriving DecidableEq

/-- Stable insertion for the ascending value sort of binning.rs line 23
(`sort_by(|a, b| a.partial_cmp(b).unwrap())`). -/
def insertAsc (a : ℚ) : List ℚ → List ℚ
  | [] => [a]
  | b :: bs => if a ≤ b then a :: b :: bs else b :: insertAsc a bs

/-- Stable ascending sort of a cell's values (binning.rs line 23). -/
def sortAsc : List ℚ → List ℚ
  | [] => []
  | a :: l => insertAsc a (sortAsc l)

/-- Embedding of `collapse_cell` (binning.rs lines 7-40). -/
def collapse_cell (points : List ℚ) (function : Function) : ℚ :=
  let len := points.length
  if len = 0 then NODATA
  else
    match function with
    | .mean => points.sum / (len : ℚ)
    | .median =>
      if len = 1 then points.headD 0
      else
        let sorted := sortAsc points
        if len % 2 = 0 then (sorted.getD (len / 2 - 1) 0 + sorted.getD (len / 2) 0) / 2
        else sorted.getD (len / 2) 0
    | .min => points.foldl (fun acc p => Min.min acc p) f64Max
    | .max => points.foldl (fun acc p => Max.max acc p) f64Min
    | .count => (len : ℚ)

/-- Models Rust's saturating `f64 as usize` cast applied to a floored
quotient (binning.rs lines 69-70): negative values clamp to 0. -/
def idxCast (q : ℚ) : ℕ := if q < 0 then 0 else (⌊q⌋).toNat

/-- The classification filter of binning.rs lines 62-66: a point is
processed iff no class filter is set or the codes agree. -/
def matchesClass (cls : Option ℕ) (p : LasPoint) : Bool :=
  match cls with
  | none => true
  | some c => p.classification == c

/-- One iteration of the binning loop (binning.rs lines 59-82): skip on
class mismatch; otherwise compute the grid index from the chosen bounds
and either push the point's variable into that cell or fail with
`Error::ShouldntHappen` (modelled as `none`) when the flat index is out
of the allocated grid. -/
def binStep (b : Bounds) (res : ℚ) (width : ℕ) (v : Variable) (cls : Option ℕ)
    (data : List (List ℚ)) (p : LasPoint) : Option (List (List ℚ)) :=
  if matchesClass cls p then
    let xIdx := idxCast ((p.x - b.minX) / res)
    let yIdx := idxCast ((p.y - b.minY) / res)
    let i := yIdx * width + xIdx
    match data[i]? with
    | none => none
    | some cell => some (data.set i (cell ++ [getVar v p]))
  else some data

/-- Embedding of `bin_points` (binning.rs lines 43-92): the index bounds
come from the chosen extent (override or header bounds), the raster size
from the header bounds (`get_raster_size(&reader, ..)`); the bins are then
collapsed cell by cell. -/
def bin_points (headerB : Bounds) (extent : Option Bounds) (res : ℚ)
    (cls : Option ℕ) (v : Variable) (f : Function) (ps : List LasPoint) :
    Option (List ℚ) :=
  let b := extent.getD headerB
  let s := getRasterSize headerB res
  let len := s.1 * s.2
  match ps.foldlM (binStep b res s.1 v cls) (List.replicate len ([] : List ℚ)) with
  | none => none
  | some data => some (data.map fun cell => collapse_cell cell f)

/-- An `f64` restricted to the values the NaN claims need: either NaN or a
finite value modelled as a rational. -/
inductive F
  | nan
  | fin (q : ℚ)
deriving DecidableEq

/-- Embedding of `f64::partial_cmp`: `None` exactly when an operand is NaN. -/
def pcompare : F → F → Option Ordering
  | .fin a, .fin b => some (compare a b)
  | _, _ => none

/-- Stable insertion step of `slice::sort_by` with a comparator that may
fail: `none` models the panic of `partial_cmp(..).unwrap()` on the first
comparison involving NaN. -/
def sortByInsert {α : Type} (c : α → α → Option Ordering) (x : α) :
    List α → Option (List α)
  | [] => some [x]
  | y :: ys =>
    match c x y with
    | none => none
    | some .gt => (sortByInsert c x ys).map (fun l => y :: l)
    | some _ => some (x :: y :: ys)

/-- Stable `sort_by` with a fallible comparator; `none` models a panic
inside the comparator. -/
def sortByM {α : Type} (c : α → α → Option Ordering) :
    List α → Option (List α)
  | [] => some []
  | x :: xs => (sortByM c xs).bind (sortByInsert c x)

/-- The internal `Point` of triangulation.rs with `f64` fields kept as `F`. -/
structure PointF where
  x : F
  y : F
  z : F
  value : F
deriving DecidableEq

/-- A decoded LAS point with `f64` fields kept as `F`. -/
structure LasPointF where
  x : F
  y : F
  z : F
  intensity : F
  classification : ℕ
deriving DecidableEq

/-- `get_var` over the NaN-aware field type. -/
def getVarF (v : Variable) (p : LasPointF) : F :=
  match v with
  | .x => p.x
  | .y => p.y
  | .z => p.z
  | .intensity => p.intensity

/-- `Point::new` over the NaN-aware field type. -/
def mkPointF (v : Variable) (p : LasPointF) : PointF :=
  ⟨p.x, p.y, p.z, getVarF v p⟩

/-- The HighNoise filter of the reading loop, over the NaN-aware type. -/
def readPointsF (v : Variable) : List LasPointF → List PointF
  | [] => []
  | p :: ps =>
    if p.classification = highNoise then readPointsF v ps
    else mkPointF v p :: readPointsF v ps

/-- The descending comparator of triangulation.rs line 72:
`b.z.partial_cmp(&a.z)`. -/
def cmpZDesc (a b : PointF) : Option Ordering := pcompare b.z a.z

/-- The filter-and-sort prefix of `triangulate` over the NaN-aware type:
`none` models a panic in the sort comparator. -/
def trianglePrepF (v : Variable) (ps : List LasPointF) : Option (List PointF) :=
  sortByM cmpZDesc (readPointsF v ps)

/-- The ascending comparator of binning.rs line 23: `a.partial_cmp(b)`. -/
def cmpAsc (a b : F) : Option Ordering := pcompare a b

/-- NaN-propagating addition on `F`. -/
def fadd : F → F → F
  | .fin a, .fin b => .fin (a + b)
  | _, _ => .nan

/-- NaN-propagating halving on `F`. -/
def fhalf : F → F
  | .fin a => .fin (a / 2)
  | .nan => .nan

/-- The `Function::Median` branch of `collapse_cell` (binning.rs lines
17-29) over the NaN-aware type: `none` models the panic of the sort
comparator's `unwrap` on a NaN comparison. -/
def collapseCellMedianF (points : List F) : Option F :=
  let len := points.length
  if len = 0 then some (.fin NODATA)
  else if len = 1 then some (points.headD (.fin 0))
  else
    (sortByM cmpAsc points).map fun sorted =>
      if len % 2 = 0 then
        fhalf (fadd (sorted.getD (len / 2 - 1) .nan) (sorted.getD (len / 2) .nan))
      else sorted.getD (len / 2) .nan

/-- A trivial instance of the abstract mesh interface, used to instantiate
universally quantified builder theorems on concrete inputs: every point
locates outside, insertion always succeeds and produces no new edges, and
interpolation always fails. -/
def TMesh : Mesh Unit where
  locate := fun _ _ => .outside
  insert := fun _ _ => some ((), [])
  addConstraint := fun t _ _ => t
  interp := fun _ _ _ => none

/-- A recording instance of the abstract mesh interface whose state is the
list of constraint-edge endpoint pairs added so far; it makes the
`add_constraint` calls of a freeze sweep observable. -/
def RecMesh : Mesh (List ((ℚ × ℚ) × (ℚ × ℚ))) where
  locate := fun _ _ => .outside
  insert := fun t _ => some (t, [])
  addConstraint := fun t a b => t ++ [(a, b)]
  interp := fun _ _ _ => none

/-- Formalisation of the spec's eviction set for the freeze check, from
its words: scanning newest to oldest, when the scan finds its first
qualifying edge at reverse index `i` (front index `length - 1 - i`), evict
every edge from the oldest end up to AND INCLUDING that edge, i.e. the
first `length - i` entries. -/
def specEvictC1 (buf : List BufEdge) (thr : ℚ) : List BufEdge :=
  match revScan thr buf.reverse with
  | none => []
  | some i => buf.take (buf.length - i)

/-- Demo FreezeBuffer entry: the older of the two, originating elevation 7. -/
def c1eOld : BufEdge := ⟨7, 0, 0, 0, 0⟩

/-- Demo FreezeBuffer entry: the newer of the two, originating elevation 5. -/
def c1eNew : BufEdge := ⟨5, 1, 1, 1, 1⟩

/-- Demo FreezeBuffer entry of planar length exactly 1 (endpoints (0,0)
and (1,0)), originating elevation 5. -/
def c2eUnit : BufEdge := ⟨5, 0, 0, 1, 0⟩

/-- Demo header bounds: the unit 10 x 10 extent. -/
def demoBounds : Bounds := ⟨0, 0, 0, 10, 10, 10⟩

/-- Demo point lying outside `demoBounds` (its x is below the minimum). -/
def demoOutsidePoint : LasPoint := ⟨-5, 5, 1, 0, 0⟩

/-- Demo point with LAS classification 7 (low-point noise). -/
def demoLowNoisePoint : LasPoint := ⟨0, 0, 0, 0, 7⟩

/-- Demo point with an ordinary (ground) classification. -/
def demoGroundPoint : LasPoint := ⟨1, 2, 3, 4, 2⟩

/-- Demo NaN-elevation point for the NaN-aware pipeline. -/
def demoNanPoint : LasPointF := ⟨.fin 0, .fin 0, .nan, .fin 0, 0⟩

/-- Demo finite point for the NaN-aware pipeline. -/
def demoFinPoint : LasPointF := ⟨.fin 1, .fin 1, .fin 1, .fin 0, 0⟩

/-- Helper: folding a conditional update is folding the update over the
filtered list. -/
theorem foldl_if_filter {τ α : Type} (g : τ → α → τ) (P : α → Prop)
    [DecidablePred P] :
    ∀ (l : List α) (t : τ),
      l.foldl (fun acc e => if P e then g acc e else acc) t =
        (l.filter fun e => decide (P e)).foldl g t := by
  intro l
  induction l with
  | nil => intro t; rfl
  | cons e es ih =>
    intro t
    by_cases h : P e <;> simp [List.filter_cons, h, ih]

/-- Helper: folding list append of singletons from a seed is the seed
followed by the mapped list. -/
theorem foldl_append_singleton {α β : Type} (f : α → β) :
    ∀ (l : List α) (t : List β),
      l.foldl (fun acc e => acc ++ [f e]) t = t ++ l.map f := by
  intro l
  induction l with
  | nil => intro t; simp
  | cons e es ih => intro t; simp [ih]

/-- Helper: the newest-to-oldest scan finds nothing when no edge
qualifies. -/
theorem revScan_none (thr : ℚ) :
    ∀ l : List BufEdge, (∀ e ∈ l, e.fromZ ≤ thr) → revScan thr l = none := by
  intro l
  induction l with
  | nil => intro _; rfl
  | cons e es ih =>
    intro h
    simp only [revScan]
    rw [if_neg (not_lt.mpr (h e (List.mem_cons_self e es))),
      ih fun x hx => h x (List.mem_cons_of_mem e hx)]
    rfl

/-- Helper: when some edge qualifies, the newest-to-oldest scan stops at
the first one, whose index is the length of the maximal non-qualifying
prefix. -/
theorem revScan_some (thr : ℚ) :
    ∀ l : List BufEdge, (∃ e ∈ l, thr < e.fromZ) →
      revScan thr l = some ((l.takeWhile fun e => decide (e.fromZ ≤ thr)).length) := by
  intro l
  induction l with
  | nil => intro h; simp at h
  | cons e es ih =>
    intro h
    by_cases hq : thr < e.fromZ
    · simp only [revScan, if_pos hq, List.takeWhile_cons,
        decide_eq_false (not_le.mpr hq)]
      rfl
    · have he : e.fromZ ≤ thr := not_lt.mp hq
      obtain ⟨f, hf, hfq⟩ := h
      rcases List.mem_cons.mp hf with rfl | hf'
      · exact absurd hfq hq
      · simp only [revScan, if_neg hq, ih ⟨f, hf', hfq⟩, Option.map_some',
          List.takeWhile_cons, decide_eq_true he, List.length_cons]
        rfl

/--
C6: `collapse_cell` returns 2.5 on `[1,2,3,4]` with `Median`, 2 on
`[1,2,3]` with `Median`, NODATA on the empty list for every aggregation
function, and 2 on `[5,5]` with `Count`.
-/
theorem c6_collapse_cell_values :
    collapse_cell [1, 2, 3, 4] Function.median = 5 / 2 ∧
    collapse_cell [1, 2, 3] Function.median = 2 ∧
    (collapse_cell [] Function.mean = NODATA ∧
      collapse_cell [] Function.median = NODATA ∧
      collapse_cell [] Function.min = NODATA ∧
      collapse_cell [] Function.max = NODATA ∧
      collapse_cell [] Function.count = NODATA) ∧
    collapse_cell [5, 5] Function.count = 2 := by
  refine ⟨?_, ?_, ⟨?_, ?_, ?_, ?_, ?_⟩, ?_⟩ <;>
    norm_num [collapse_cell, sortAsc, insertAsc]

/--
C2 (amended): during a freeze sweep an evicted edge is promoted to a
constraint if and only if its SQUARED planar length is STRICTLY below
`freeze_distance_2 = freeze_distance²` (triangulation.rs line 90 uses
`dist < freeze_distance_2`); an evicted edge whose length equals
`freeze_distance` exactly is NOT promoted.  Stated as: the triangulation
resulting from the sweep is obtained by adding a constraint for exactly
the strictly-shorter evicted edges, in eviction order, and the remaining
buffer is untouched by promotion.
-/
theorem c2_promotion_strict {τ : Type} (M : Mesh τ) (fd2 ib wm : ℚ) (t : τ)
    (buf : List BufEdge) :
    (freezeSweep M fd2 ib t wm buf).1 =
      ((sweepSplit buf (wm + ib)).1.filter fun e => decide (dist2 e < fd2)).foldl
        (fun acc e => M.addConstraint acc (e.aX, e.aY) (e.bX, e.bY)) t ∧
    (freezeSweep M fd2 ib t wm buf).2 = (sweepSplit buf (wm + ib)).2 := by
  constructor
  · exact foldl_if_filter (fun acc e => M.addConstraint acc (e.aX, e.aY) (e.bX, e.bY))
      (fun e => dist2 e < fd2) (sweepSplit buf (wm + ib)).1 t
  · rfl

/--
C2 (counterexample): with `freeze_distance = 1`, watermark 0 and
`insertion_buffer = 0`, the single buffered edge `c2eUnit` (planar length
exactly 1, squared length `1 ≤ 1 * 1`) is evicted by the sweep, yet the
recording mesh shows no `add_constraint` call: the claim "evicted ∧
length ≤ freeze_distance → promoted" fails at equality.
-/
theorem c2_promotion_cex :
    c2eUnit ∈ (sweepSplit [c2eUnit] (0 + 0)).1 ∧
    dist2 c2eUnit ≤ 1 * 1 ∧
    (freezeSweep RecMesh (1 * 1) 0 ([] : List ((ℚ × ℚ) × (ℚ × ℚ))) 0 [c2eUnit]).1 = [] := by
  refine ⟨?_, ?_, ?_⟩ <;>
    norm_num [sweepSplit, revScan, dist2, freezeSweep, RecMesh, c2eUnit]

/--
C1 (amended): the freeze check scans the FreezeBuffer from newest to
oldest and stops at the first edge whose originating elevation exceeds
the threshold; if that edge sits at reverse index `i` (equivalently, `i`
is the length of the maximal newest-first run of non-qualifying edges),
the code evicts the `i + 1` OLDEST edges of the buffer
(`constraint_buffer.drain(..=i)` drains front indices `0 ..= i`), keeping
the rest — NOT the edges from the oldest end up to and including the
found edge.
-/
theorem c1_eviction_oldest (buf : List BufEdge) (thr : ℚ)
    (h : ∃ e ∈ buf, thr < e.fromZ) :
    sweepSplit buf thr =
      (buf.take ((buf.reverse.takeWhile fun e => decide (e.fromZ ≤ thr)).length + 1),
        buf.drop ((buf.reverse.takeWhile fun e => decide (e.fromZ ≤ thr)).length + 1)) := by
  unfold sweepSplit
  rw [revScan_some thr buf.reverse (by simpa [List.mem_reverse] using h)]

/--
C1 (witness): in the two-edge buffer `[c1eOld, c1eNew]` with threshold 0
the newest edge qualifies first (reverse index 0), so exactly the single
oldest edge is evicted and the newest remains.
-/
theorem c1_eviction_oldest_witness :
    sweepSplit [c1eOld, c1eNew] 0 = ([c1eOld], [c1eNew]) := by
  rw [c1_eviction_oldest [c1eOld, c1eNew] 0
    ⟨c1eNew, by norm_num [c1eNew], by norm_num [c1eNew]⟩]
  norm_num [c1eOld, c1eNew]

/--
C1 (counterexample): same two-edge buffer, threshold 0: the first
qualifying edge in newest-to-oldest order is `c1eNew`, so the claim's
eviction set ("from the oldest end up to and including that edge") is the
whole buffer `[c1eOld, c1eNew]`, but the code evicts only `[c1eOld]`.
-/
theorem c1_eviction_cex :
    (sweepSplit [c1eOld, c1eNew] 0).1 = [c1eOld] ∧
    specEvictC1 [c1eOld, c1eNew] 0 = [c1eOld, c1eNew] ∧
    (sweepSplit [c1eOld, c1eNew] 0).1 ≠ specEvictC1 [c1eOld, c1eNew] 0 := by
  refine ⟨?_, ?_, ?_⟩ <;>
    norm_num [sweepSplit, specEvictC1, revScan, c1eOld, c1eNew]

/--
C7 (amended): the reading loop of `triangulate` retains a point if and
only if its classification is not `HighNoise` (LAS class 18): the
retained list is exactly the High-Noise-filtered input, mapped to the
internal point type.  LAS class 7 (low-point noise) is NOT filtered.
-/
theorem c7_noise_filter (v : Variable) :
    ∀ ps : List LasPoint,
      readPoints v ps =
        (ps.filter fun p => p.classification != highNoise).map (mkPoint v) := by
  intro ps
  induction ps with
  | nil => rfl
  | cons p ps ih =>
    by_cases h : p.classification = highNoise <;>
      simp [readPoints, List.filter_cons, h, ih]

/--
C7 (counterexample): the point `demoLowNoisePoint` carries LAS
classification 7, which the LAS specification referenced by main.rs marks
as noise ("Low Point (noise)"), yet the reading loop retains it: the
claim "retained iff the classification is not a noise classification"
fails on low-point noise.
-/
theorem c7_noise_filter_cex :
    isNoiseClassification demoLowNoisePoint.classification ∧
    readPoints Variable.z [demoLowNoisePoint] =
      [mkPoint Variable.z demoLowNoisePoint] := by
  constructor
  · exact Or.inl rfl
  · norm_num [readPoints, demoLowNoisePoint, highNoise]

/--
C9 (amended): a class-matching point makes `bin_points` abort with
`Error::ShouldntHappen` (modelled as `none`) exactly when its computed
flat index `y_idx * width + x_idx` is at or beyond the end of the
allocated grid; the index is computed with Rust's saturating
float-to-usize cast, so a point outside the extent on the low side
saturates to row/column 0 and is silently binned into an existing cell
instead of being excluded or raising the error.
-/
theorem c9_out_of_extent (b : Bounds) (res : ℚ) (width : ℕ) (v : Variable)
    (cls : Option ℕ) (data : List (List ℚ)) (p : LasPoint) :
    binStep b res width v cls data p = none ↔
      matchesClass cls p = true ∧
        data.length ≤
          idxCast ((p.y - b.minY) / res) * width + idxCast ((p.x - b.minX) / res) := by
  unfold binStep
  by_cases hm : matchesClass cls p
  · rw [if_pos hm]
    cases hget : data[idxCast ((p.y - b.minY) / res) * width + idxCast ((p.x - b.minX) / res)]? with
    | none => simp [hget, hm, List.getElem?_eq_none_iff.mp hget]
    | some cell =>
      have hlen : ¬ data.length ≤
          idxCast ((p.y - b.minY) / res) * width + idxCast ((p.x - b.minX) / res) := by
        intro hle
        rw [List.getElem?_eq_none_iff.mpr hle] at hget
        cases hget
      simp [hget, hlen]
  · simp [hm]

/--
C9 (counterexample): with the 10 x 10 extent `demoBounds`, resolution 10
(a single 1 x 1 cell grid) and no class filter, the point
`demoOutsidePoint` at (-5, 5) lies outside the extent (x below the
minimum), yet `bin_points` neither excludes it nor aborts: the negative
column offset saturates to index 0 and the point's value is silently
binned into cell 0, producing `some [1]`.
-/
theorem c9_out_of_extent_cex :
    demoOutsidePoint.x < demoBounds.minX ∧
    bin_points demoBounds none 10 none Variable.z Function.median
      [demoOutsidePoint] = some [1] := by
  constructor
  · norm_num [demoOutsidePoint, demoBounds]
  · norm_num [bin_points, getRasterSize, ceilDiv, binStep, matchesClass,
      idxCast, getVar, collapse_cell, demoOutsidePoint, demoBounds,
      List.foldlM_cons, List.foldlM_nil, List.replicate]

/-- Helper: the row-major grid built by nested range loops has `h * w`
entries. -/
theorem grid_length (g : ℕ → ℕ → ℚ) (w : ℕ) :
    ∀ h : ℕ,
      ((List.range h).flatMap fun j => (List.range w).map (g j)).length = h * w := by
  intro h
  induction h with
  | zero => simp
  | succ n ih =>
    rw [List.range_succ, List.flatMap_append, List.length_append, ih]
    simp [Nat.succ_mul]

/-- Helper: in the row-major grid built by nested range loops, the entry
at flat index `y * w + x` is the sample of cell `(x, y)`. -/
theorem grid_getElem (g : ℕ → ℕ → ℚ) (w : ℕ) :
    ∀ (h y x : ℕ), y < h → x < w →
      ((List.range h).flatMap fun j => (List.range w).map (g j))[y * w + x]? =
        some (g y x) := by
  intro h
  induction h with
  | zero => intro y x hy _; exact absurd hy (Nat.not_lt_zero y)
  | succ n ih =>
    intro y x hy hx
    rw [List.range_succ, List.flatMap_append]
    rcases Nat.lt_or_ge y n with h1 | h1
    · have hlen : y * w + x <
          ((List.range n).flatMap fun j => (List.range w).map (g j)).length := by
        rw [grid_length]
        calc y * w + x < y * w + w := by omega
          _ = (y + 1) * w := by ring
          _ ≤ n * w := Nat.mul_le_mul_right w h1
      rw [List.getElem?_append, if_pos hlen]
      exact ih y x h1 hx
    · have hy' : y = n := by omega
      subst hy'
      have hle : ((List.range y).flatMap fun j => (List.range w).map (g j)).length ≤
          y * w + x := by
        rw [grid_length]
        exact Nat.le_add_right _ _
      rw [List.getElem?_append_right hle, grid_length, Nat.add_sub_cancel_left]
      simp [List.getElem?_map, List.getElem?_range hx]

/--
C3: for every cell `(x, y)` of the output raster (column `x < width`, row
`y < height`), the entry at row-major index `y * width + x` is the
interpolation at the cell's LOWER-LEFT corner: the extent minimum rounded
to the nearest integer (Rust `f64::round`, half away from zero) plus
`resolution * index` per axis — not the cell center.
-/
theorem c3_sample_position (interp : ℚ → ℚ → Option ℚ) (minX minY res : ℚ)
    (width height x y : ℕ) (hy : y < height) (hx : x < width) :
    (rasterize interp minX minY res width height)[y * width + x]? =
      some ((interp (rustRound minX + res * x) (rustRound minY + res * y)).getD NODATA) := by
  unfold rasterize
  exact grid_getElem _ width height y x hy hx

/--
C3 (witness): a concrete 2 x 2 raster at resolution 10 with minimum
corner (3/2, 0): cell (1, 1) samples at (round(3/2) + 10, round(0) + 10)
= (12, 10), so the sum interpolant yields 22 at flat index 3.
-/
theorem c3_sample_position_witness :
    (rasterize (fun a b => some (a + b)) (3 / 2) 0 10 2 2)[1 * 2 + 1]? = some 22 := by
  rw [c3_sample_position (fun a b => some (a + b)) (3 / 2) 0 10 2 2 1 1
    (by norm_num) (by norm_num)]
  norm_num [rustRound]

/--
C4: any raster cell whose sample position gets no interpolated value
(the barycentric interpolator returns `None`: the point is outside the
triangulated hull or no containing face is located) receives the NODATA
sentinel, via `unwrap_or(NODATA)`.
-/
theorem c4_nodata_outside (interp : ℚ → ℚ → Option ℚ) (minX minY res : ℚ)
    (width height x y : ℕ) (hy : y < height) (hx : x < width)
    (hnone : interp (rustRound minX + res * x) (rustRound minY + res * y) = none) :
    (rasterize interp minX minY res width height)[y * width + x]? = some NODATA := by
  unfold rasterize
  rw [grid_getElem _ width height y x hy hx, hnone]
  rfl

/--
C4 (witness): with an interpolator that never finds a face, cell (0, 2)
of a 3 x 3 raster receives NODATA.
-/
theorem c4_nodata_outside_witness :
    (rasterize (fun _ _ => none) 0 0 1 3 3)[2 * 3 + 0]? = some NODATA := by
  exact c4_nodata_outside (fun _ _ => none) 0 0 1 3 3 0 2
    (by norm_num) (by norm_num) rfl

/--
C5: the build is deterministic as a function of the input point sequence:
over any fixed mesh implementation, running on two identical input
sequences with identical parameters yields an identical final builder
state (triangulation, watermark and buffer) and an identical output
raster — the whole pipeline (noise filter, stable descending sort,
insertion loop with freeze sweeps, sampling) is a pure function of its
input.
-/
theorem c5_deterministic {τ : Type} (M : Mesh τ) (t0 : τ)
    (ps1 ps2 : List LasPoint) (b : Bounds) (v : Variable) (res fd ib : ℚ)
    (h : ps1 = ps2) :
    buildLoop M (fd * fd) ib ⟨t0, initWatermark ps1, []⟩ (sortDesc (readPoints v ps1)) =
      buildLoop M (fd * fd) ib ⟨t0, initWatermark ps2, []⟩ (sortDesc (readPoints v ps2)) ∧
    triangulateRun M t0 ps1 b v res fd ib = triangulateRun M t0 ps2 b v res fd ib := by
  subst h
  exact ⟨rfl, rfl⟩

/--
C5 (witness): the determinism theorem instantiated on a concrete
one-point run over the trivial mesh.
-/
theorem c5_deterministic_witness :
    buildLoop TMesh (1 * 1) 1 ⟨(), initWatermark [demoGroundPoint], []⟩
        (sortDesc (readPoints Variable.z [demoGroundPoint])) =
      buildLoop TMesh (1 * 1) 1 ⟨(), initWatermark [demoGroundPoint], []⟩
        (sortDesc (readPoints Variable.z [demoGroundPoint])) ∧
    triangulateRun TMesh () [demoGroundPoint] demoBounds Variable.z 1 1 1 =
      triangulateRun TMesh () [demoGroundPoint] demoBounds Variable.z 1 1 1 := by
  exact c5_deterministic TMesh () [demoGroundPoint] [demoGroundPoint]
    demoBounds Variable.z 1 1 1 rfl

/-- Helper: the seed never exceeds the running-maximum fold. -/
theorem seed_le_foldl_max :
    ∀ (ps : List LasPoint) (m0 : ℚ),
      m0 ≤ ps.foldl (fun a q => max a q.z) m0 := by
  intro ps
  induction ps with
  | nil => intro m0; simp
  | cons p ps ih =>
    intro m0
    simp only [List.foldl_cons]
    exact le_trans (le_max_left _ _) (ih (max m0 p.z))

/-- Helper: every listed elevation is below the running-maximum fold. -/
theorem mem_le_foldl_max :
    ∀ (ps : List LasPoint) (m0 : ℚ) (p : LasPoint), p ∈ ps →
      p.z ≤ ps.foldl (fun a q => max a q.z) m0 := by
  intro ps
  induction ps with
  | nil => intro m0 p hp; simp at hp
  | cons q ps ih =>
    intro m0 p hp
    rcases List.mem_cons.mp hp with rfl | hp'
    · simp only [List.foldl_cons]
      exact le_trans (le_max_right m0 p.z) (seed_le_foldl_max ps (max m0 p.z))
    · exact ih (max m0 q.z) p hp'

/-- Helper: the running-maximum fold returns the seed or some listed
elevation. -/
theorem foldl_max_cases :
    ∀ (ps : List LasPoint) (m0 : ℚ),
      ps.foldl (fun a q => max a q.z) m0 = m0 ∨
        ∃ p ∈ ps, ps.foldl (fun a q => max a q.z) m0 = p.z := by
  intro ps
  induction ps with
  | nil => intro m0; exact Or.inl rfl
  | cons p ps ih =>
    intro m0
    simp only [List.foldl_cons]
    rcases ih (max m0 p.z) with h | ⟨q, hq, h⟩
    · rcases le_total p.z m0 with hle | hle
      · exact Or.inl (by rw [h, max_eq_left hle])
      · exact Or.inr ⟨p, List.mem_cons_self p ps, by rw [h, max_eq_right hle]⟩
    · exact Or.inr ⟨q, List.mem_cons_of_mem p hq, h⟩

/-- Helper: a successful `insert_vert` sets the watermark to
`min(watermark, point.z)`. -/
theorem insertVert_wm {τ : Type} (M : Mesh τ) (p : Point) (st1 st' : St τ)
    (h : insertVert M p st1 = some st') : st'.wm = min st1.wm p.z := by
  simp only [insertVert] at h
  cases hM : M.insert st1.tri p with
  | none => rw [hM] at h; cases h
  | some pr =>
    obtain ⟨t, es⟩ := pr
    rw [hM] at h
    simp only [Option.some.injEq] at h
    rw [← h]

/-- Helper: the locate dispatch either keeps the state (skip) or inserts,
so the resulting watermark is the old one or `min(old, point.z)`. -/
theorem stepLocate_wm {τ : Type} (M : Mesh τ) (p : Point) (st1 st' : St τ)
    (h : stepLocate M p st1 = some st') :
    st'.wm = st1.wm ∨ st'.wm = min st1.wm p.z := by
  simp only [stepLocate] at h
  cases hl : M.locate st1.tri (p.x, p.y) with
  | onFace allC =>
    rw [hl] at h
    cases allC with
    | true =>
      simp only [if_true, Option.some.injEq] at h
      exact Or.inl (by rw [← h])
    | false =>
      simp only [Bool.false_eq_true, if_false] at h
      exact Or.inr (insertVert_wm M p st1 st' h)
  | onVertex vz =>
    rw [hl] at h
    dsimp only at h
    by_cases hc : st1.wm < p.z - vz
    · rw [if_pos hc] at h
      exact Or.inr (insertVert_wm M p st1 st' h)
    · rw [if_neg hc] at h
      simp only [Option.some.injEq] at h
      exact Or.inl (by rw [← h])
  | onEdge isC =>
    rw [hl] at h
    cases isC with
    | true =>
      simp only [if_true, Option.some.injEq] at h
      exact Or.inl (by rw [← h])
    | false =>
      simp only [Bool.false_eq_true, if_false] at h
      exact Or.inr (insertVert_wm M p st1 st' h)
  | outside =>
    rw [hl] at h
    exact Or.inr (insertVert_wm M p st1 st' h)

/-- Helper: one build step never raises the watermark, and changes it only
to `min(old, point.z)`. -/
theorem step_wm {τ : Type} (M : Mesh τ) (fd2 ib : ℚ) (st : St τ) (p : Point)
    (st' : St τ) (h : step M fd2 ib st p = some st') :
    (st'.wm = st.wm ∨ st'.wm = min st.wm p.z) ∧ st'.wm ≤ st.wm := by
  have h2 := stepLocate_wm M p _ st' h
  constructor
  · exact h2
  · rcases h2 with h2 | h2
    · rw [h2]
    · rw [h2]; exact min_le_left _ _

/-- Helper: the whole insertion loop never raises the watermark. -/
theorem buildLoop_wm {τ : Type} (M : Mesh τ) (fd2 ib : ℚ) :
    ∀ (ps : List Point) (st st' : St τ),
      buildLoop M fd2 ib st ps = some st' → st'.wm ≤ st.wm := by
  intro ps
  induction ps with
  | nil =>
    intro st st' h
    simp only [buildLoop, List.foldlM_nil, pure, Option.some.injEq] at h
    rw [← h]
  | cons p ps ih =>
    intro st st' h
    simp only [buildLoop, List.foldlM_cons] at h
    cases hstep : step M fd2 ib st p with
    | none => rw [hstep] at h; cases h
    | some s1 =>
      rw [hstep] at h
      simp only [Option.bind_eq_bind, Option.some_bind] at h
      exact le_trans (ih s1 st' h) (step_wm M fd2 ib st p s1 hstep).2

/--
C8: the watermark (`buffer_height`) is initialised, before any insertion,
to the maximum elevation over all decoded input points (the fold of
`max` seeded with `f64::MIN`; the hypothesis that elevations are at least
`f64::MIN` reflects that every finite `f64` is), and afterwards it is
monotonically non-increasing: a build step either keeps it or sets it to
`min(watermark, point.z)` on insertion, and the whole insertion loop
never raises it.
-/
theorem c8_watermark :
    (∀ ps : List LasPoint, ps ≠ [] → (∀ p ∈ ps, f64Min ≤ p.z) →
      (∀ p ∈ ps, p.z ≤ initWatermark ps) ∧ ∃ p ∈ ps, initWatermark ps = p.z) ∧
    (∀ (τ : Type) (M : Mesh τ) (fd2 ib : ℚ) (st : St τ) (p : Point) (st' : St τ),
      step M fd2 ib st p = some st' →
        (st'.wm = st.wm ∨ st'.wm = min st.wm p.z) ∧ st'.wm ≤ st.wm) ∧
    (∀ (τ : Type) (M : Mesh τ) (fd2 ib : ℚ) (st : St τ) (ps : List Point) (st' : St τ),
      buildLoop M fd2 ib st ps = some st' → st'.wm ≤ st.wm) := by
  refine ⟨?_, ?_, ?_⟩
  · intro ps hne hfin
    constructor
    · intro p hp
      exact mem_le_foldl_max ps f64Min p hp
    · rcases foldl_max_cases ps f64Min with h | ⟨p, hp, h⟩
      · cases ps with
        | nil => exact absurd rfl hne
        | cons q qs =>
          refine ⟨q, List.mem_cons_self q qs, le_antisymm ?_ ?_⟩
          · show initWatermark (q :: qs) ≤ q.z
            rw [show initWatermark (q :: qs) = f64Min from h]
            exact hfin q (List.mem_cons_self q qs)
          · exact mem_le_foldl_max (q :: qs) f64Min q (List.mem_cons_self q qs)
      · exact ⟨p, hp, h⟩
  · intro τ M fd2 ib st p st' h
    exact step_wm M fd2 ib st p st' h
  · intro τ M fd2 ib st ps st' h
    exact buildLoop_wm M fd2 ib ps st st' h

/--
C8 (witness): the watermark facts instantiated on concrete inputs: a
one-point list initialises the watermark to that point's elevation, and a
concrete build step over the trivial mesh (starting watermark 10,
inserted elevation 3) neither raises the watermark nor sets it to
anything but `min(10, 3)`.
-/
theorem c8_watermark_witness :
    ((∀ p ∈ [demoGroundPoint], p.z ≤ initWatermark [demoGroundPoint]) ∧
      ∃ p ∈ [demoGroundPoint], initWatermark [demoGroundPoint] = p.z) ∧
    (((⟨(), min 10 3, []⟩ : St Unit).wm = (⟨(), 10, []⟩ : St Unit).wm ∨
        (⟨(), min 10 3, []⟩ : St Unit).wm =
          min (⟨(), 10, []⟩ : St Unit).wm (⟨0, 0, 3, 0⟩ : Point).z) ∧
      (⟨(), min 10 3, []⟩ : St Unit).wm ≤ (⟨(), 10, []⟩ : St Unit).wm) := by
  constructor
  · exact c8_watermark.1 [demoGroundPoint] (by simp)
      (by intro p hp; simp at hp; rw [hp]; norm_num [demoGroundPoint, f64Min])
  · exact c8_watermark.2.1 Unit TMesh 1 1 ⟨(), 10, []⟩ ⟨0, 0, 3, 0⟩
      ⟨(), min 10 3, []⟩ rfl

/-- Helper: `partial_cmp` with NaN on the left is `None`. -/
theorem pcompare_nan_left (a : F) : pcompare F.nan a = none := by
  cases a <;> rfl

/-- Helper: `partial_cmp` with NaN on the right is `None`. -/
theorem pcompare_nan_right (a : F) : pcompare a F.nan = none := by
  cases a <;> rfl

/-- Helper: inserting an element whose comparisons all fail into a
non-empty list panics immediately. -/
theorem sortByInsert_none_left {α : Type} (c : α → α → Option Ordering)
    (x : α) (hx : ∀ y, c x y = none) :
    ∀ l : List α, l ≠ [] → sortByInsert c x l = none := by
  intro l hl
  cases l with
  | nil => exact absurd rfl hl
  | cons y ys => simp [sortByInsert, hx y]

/-- Helper: a successful insertion grows the list by one. -/
theorem sortByInsert_length {α : Type} (c : α → α → Option Ordering) (x : α) :
    ∀ (l l' : List α), sortByInsert c x l = some l' → l'.length = l.length + 1 := by
  intro l
  induction l with
  | nil =>
    intro l' h
    simp only [sortByInsert, Option.some.injEq] at h
    rw [← h]
    rfl
  | cons y ys ih =>
    intro l' h
    simp only [sortByInsert] at h
    cases hc : c x y with
    | none => rw [hc] at h; cases h
    | some o =>
      rw [hc] at h
      cases o with
      | lt =>
        dsimp only at h
        simp only [Option.some.injEq] at h
        rw [← h]
        rfl
      | eq =>
        dsimp only at h
        simp only [Option.some.injEq] at h
        rw [← h]
        rfl
      | gt =>
        dsimp only at h
        cases hrec : sortByInsert c x ys with
        | none => rw [hrec] at h; cases h
        | some l₀ =>
          rw [hrec] at h
          simp only [Option.map_some', Option.some.injEq] at h
          rw [← h]
          simp [ih l₀ hrec]

/-- Helper: a successful fallible sort preserves the length. -/
theorem sortByM_length {α : Type} (c : α → α → Option Ordering) :
    ∀ (l l' : List α), sortByM c l = some l' → l'.length = l.length := by
  intro l
  induction l with
  | nil =>
    intro l' h
    simp only [sortByM, Option.some.injEq] at h
    rw [← h]
  | cons x xs ih =>
    intro l' h
    simp only [sortByM] at h
    cases hs : sortByM c xs with
    | none => rw [hs] at h; cases h
    | some l₀ =>
      rw [hs] at h
      simp only [Option.some_bind] at h
      rw [sortByInsert_length c x l₀ l' h, ih l₀ hs]
      rfl

/-- Helper: the fallible stable sort panics whenever the list has at
least two elements and one of them compares as `None` against everything
(as a NaN key does). -/
theorem sortByM_none {α : Type} (c : α → α → Option Ordering) (bad : α → Prop)
    (hbadL : ∀ x y, bad x → c x y = none)
    (hbadR : ∀ x y, bad y → c x y = none) :
    ∀ l : List α, 2 ≤ l.length → (∃ e ∈ l, bad e) → sortByM c l = none := by
  intro l
  induction l with
  | nil => intro h _; simp at h
  | cons x xs ih =>
    intro hlen hbad
    simp only [sortByM]
    obtain ⟨e, he, hbade⟩ := hbad
    rcases List.mem_cons.mp he with rfl | hexs
    · cases hs : sortByM c xs with
      | none => rfl
      | some l₀ =>
        have hlen₀ : l₀.length = xs.length := sortByM_length c xs l₀ hs
        have hne : l₀ ≠ [] := by
          intro hnil
          rw [hnil] at hlen₀
          simp only [List.length_nil] at hlen₀
          simp only [List.length_cons] at hlen
          omega
        simp only [Option.some_bind]
        exact sortByInsert_none_left c e (fun y => hbadL e y hbade) l₀ hne
    · rcases Nat.lt_or_ge xs.length 2 with hsmall | hbig
      · have hxs : xs = [e] := by
          cases xs with
          | nil => simp at hexs
          | cons y ys =>
            cases ys with
            | nil => simp at hexs; rw [hexs]
            | cons z zs => simp only [List.length_cons] at hsmall; omega
        subst hxs
        simp [sortByM, sortByInsert, hbadR x e hbade]
      · rw [ih hbig ⟨e, hexs, hbade⟩]
        rfl

/-- Helper: the retained NaN-aware point list is the High-Noise-filtered
input. -/
theorem readPointsF_filter (v : Variable) :
    ∀ ps : List LasPointF,
      readPointsF v ps =
        (ps.filter fun p => p.classification != highNoise).map (mkPointF v) := by
  intro ps
  induction ps with
  | nil => rfl
  | cons p ps ih =>
    by_cases h : p.classification = highNoise <;>
      simp [readPointsF, List.filter_cons, h, ih]

/--
C10: NaN elevations panic instead of producing an error value: when the
retained point set has at least two points and one has NaN elevation, the
descending sort of `triangulate` panics inside the comparator
(`partial_cmp(..).unwrap()`, modelled as the sort returning `none`); and
`collapse_cell` with `Median` panics likewise on a cell of two or more
values containing NaN.
-/
theorem c10_nan_panics :
    (∀ (v : Variable) (ps : List LasPointF),
      2 ≤ (readPointsF v ps).length →
      (∃ p ∈ readPointsF v ps, p.z = F.nan) →
      trianglePrepF v ps = none) ∧
    (∀ vs : List F, 2 ≤ vs.length → F.nan ∈ vs → collapseCellMedianF vs = none) := by
  constructor
  · intro v ps hlen hnan
    unfold trianglePrepF
    refine sortByM_none cmpZDesc (fun p => p.z = F.nan) ?_ ?_
      (readPointsF v ps) hlen hnan
    · intro x y hx
      unfold cmpZDesc
      rw [hx]
      exact pcompare_nan_right y.z
    · intro x y hy
      unfold cmpZDesc
      rw [hy]
      exact pcompare_nan_left x.z
  · intro vs hlen hnan
    have hsort : sortByM cmpAsc vs = none := by
      refine sortByM_none cmpAsc (fun a => a = F.nan) ?_ ?_ vs hlen
        ⟨F.nan, hnan, rfl⟩
      · intro x y hx
        unfold cmpAsc
        rw [hx]
        exact pcompare_nan_left y
      · intro x y hy
        unfold cmpAsc
        rw [hy]
        exact pcompare_nan_right x
    simp only [collapseCellMedianF]
    rw [if_neg (by omega), if_neg (by omega), hsort]
    rfl

/--
C10 (witness): a concrete two-point list with one NaN elevation makes the
sort prefix of `triangulate` panic, and a concrete two-value cell
containing NaN makes the median panic.
-/
theorem c10_nan_panics_witness :
    trianglePrepF Variable.z [demoNanPoint, demoFinPoint] = none ∧
    collapseCellMedianF [F.nan, F.fin 1] = none := by
  constructor
  · exact c10_nan_panics.1 Variable.z [demoNanPoint, demoFinPoint]
      (by simp [readPointsF, demoNanPoint, demoFinPoint, highNoise, mkPointF])
      ⟨mkPointF Variable.z demoNanPoint,
        by simp [readPointsF, demoNanPoint, demoFinPoint, highNoise],
        by simp [mkPointF, demoNanPoint]⟩
  · exact c10_nan_panics.2 [F.nan, F.fin 1] (by simp) (by simp)

end LasRaster
